import Mathlib

/-!
Verification of the resource-metrics aggregator of ollama-k8s-rag
(src/unified_server.py and src/k8s_mcp_server.py).

The embedding models:
- `parse_quantity` (identical in both files): Kubernetes quantity-string
  parsing on top of Python's float constructor.  Numeric values are
  embedded as exact rationals.  The float constructor is modelled by
  `pyFloatL` on its finite-literal fragment: optional surrounding
  whitespace, an optional sign, a digit sequence with optional fractional
  part (underscores between digits as in Python 3.6+) and an optional
  decimal exponent.  The special literals inf and nan denote non-finite
  values outside the rational domain and are not modelled.
- the per-node aggregation loops of get_cluster_cpu / get_cluster_memory:
  capacity lookup with the missing-key default, accumulation of
  unrounded totals, per-node detail records, and display rounding
  (Python's round on exact values: round half to even).
-/

attribute [local semireducible] Rat.add Rat.mul Rat.inv Rat.sub Rat.ofScientific

/-- Python whitespace characters stripped by the float constructor. -/
def isPyWs (c : Char) : Bool :=
  decide (c = ' ' ∨ c = '\t' ∨ c = '\n' ∨ c = '\r' ∨ c = '\x0b' ∨ c = '\x0c')

/-- Strip leading and trailing whitespace, as the float constructor does. -/
def stripWs (l : List Char) : List Char :=
  ((l.dropWhile isPyWs).reverse.dropWhile isPyWs).reverse

/-- Continuation of a digit run: digits, with single underscores allowed
between digits (Python numeric-literal underscore rule). Returns the
digits consumed (underscores dropped) and the unconsumed rest. -/
def runTail : List Char → List Char × List Char
  | [] => ([], [])
  | c :: cs =>
    if c.isDigit then
      let p := runTail cs
      (c :: p.1, p.2)
    else if c = '_' then
      match cs with
      | c2 :: cs2 =>
        if c2.isDigit then
          let p := runTail cs2
          (c2 :: p.1, p.2)
        else ([], c :: cs)
      | [] => ([], c :: cs)
    else ([], c :: cs)

/-- A maximal digit run (with Python underscore rules): the run must start
with a digit; an underscore at the front consumes nothing. -/
def digitsRun (l : List Char) : List Char × List Char :=
  match l with
  | [] => ([], [])
  | c :: cs =>
    if c.isDigit then
      let p := runTail cs
      (c :: p.1, p.2)
    else ([], l)

/-- Value of a list of decimal digit characters. -/
def natOfDigits (l : List Char) : ℕ :=
  l.foldl (fun a c => 10 * a + (c.toNat - 48)) 0

/-- Optional sign: returns (isNegative, rest). -/
def parseSignL : List Char → Bool × List Char
  | [] => (false, [])
  | c :: cs =>
    if c = '+' then (false, cs)
    else if c = '-' then (true, cs)
    else (false, c :: cs)

/-- Value of an integer part and a fractional digit part. -/
def ratOfParts (ip fp : List Char) : ℚ :=
  (natOfDigits ip : ℚ) + (natOfDigits fp : ℚ) / 10 ^ fp.length

/-- The mantissa of a float literal: an integer part, optionally a dot and
a fractional part, at least one digit in total.  Returns the value and the
unconsumed rest (exponent or junk). -/
def mantissaCore (l : List Char) : Option (ℚ × List Char) :=
  let p := digitsRun l
  match p.2 with
  | c :: r2 =>
    if c = '.' then
      let q := digitsRun r2
      if p.1 = [] ∧ q.1 = [] then none
      else some (ratOfParts p.1 q.1, q.2)
    else if p.1 = [] then none
    else some ((natOfDigits p.1 : ℚ), c :: r2)
  | [] =>
    if p.1 = [] then none
    else some ((natOfDigits p.1 : ℚ), [])

/-- The exponent part of a float literal. Empty input means exponent 0; an
explicit exponent is e or E, an optional sign and a nonempty digit run
that must reach the end of the input. -/
def parseExpPart : List Char → Option ℤ
  | [] => some 0
  | c :: cs =>
    if c = 'e' ∨ c = 'E' then
      let s := parseSignL cs
      let q := digitsRun s.2
      if q.1 = [] then none
      else if q.2 ≠ [] then none
      else some (if s.1 then -(natOfDigits q.1 : ℤ) else (natOfDigits q.1 : ℤ))
    else none

/-- Python's float constructor on its finite-literal fragment (see the
file comment): none models a ValueError. -/
def pyFloatL (l : List Char) : Option ℚ :=
  let s := stripWs l
  let sg := parseSignL s
  match mantissaCore sg.2 with
  | none => none
  | some (v, r) =>
    match parseExpPart r with
    | none => none
    | some e =>
      let m := if sg.1 then -v else v
      some (if 0 ≤ e then m * (10 : ℚ) ^ e.toNat else m / (10 : ℚ) ^ (-e).toNat)

/-- Whether the pattern is a prefix of the list. -/
def startsWithL : List Char → List Char → Bool
  | [], _ => true
  | _ :: _, [] => false
  | p :: ps, x :: xs => if p = x then startsWithL ps xs else false

/-- Python's str.endswith on character lists. -/
def endsWithL (l suf : List Char) : Bool :=
  startsWithL suf.reverse l.reverse

/-- Python's negative-free slicing s[:-n] used after a suffix match. -/
def dropRightL (l : List Char) (n : ℕ) : List Char :=
  l.take (l.length - n)

/-- The units dict of parse_quantity, in its insertion (iteration) order. -/
def unitsList : List (List Char × ℚ) :=
  [(['K', 'i'], 1024), (['M', 'i'], 1024 ^ 2), (['G', 'i'], 1024 ^ 3), (['T', 'i'], 1024 ^ 4),
   (['K'], 1000), (['M'], 1000 ^ 2), (['G'], 1000 ^ 3), (['T'], 1000 ^ 4)]

/-- parse_quantity of both servers, on character lists: empty input is 0;
a trailing m divides by 1000, a trailing n by 10^9; otherwise the first
matching suffix of unitsList multiplies by its factor; otherwise the whole
string is parsed as a float.  none models the ValueError raised by float. -/
def parseQ (l : List Char) : Option ℚ :=
  if l = [] then some 0
  else if endsWithL l ['m'] then (pyFloatL (dropRightL l 1)).map (fun v => v / 1000)
  else if endsWithL l ['n'] then (pyFloatL (dropRightL l 1)).map (fun v => v / 1000000000)
  else
    match unitsList.find? (fun u => endsWithL l u.1) with
    | some u => (pyFloatL (dropRightL l u.1.length)).map (fun v => v * u.2)
    | none => pyFloatL l

/-- parse_quantity on strings. -/
def parse_quantity (s : String) : Option ℚ :=
  parseQ s.data


/-- Modelled from the spec: the quantity-parser contract of section 4.1,
written as the spec states it, with the eight multi-character suffixes
tested in the spec's exact order (first match wins) as a chain of
explicit conditionals.  To be compared with parseQ, which follows the
source's iteration over the units dict. -/
def parseQuantitySpec (l : List Char) : Option ℚ :=
  if l = [] then some 0
  else if endsWithL l ['m'] then (pyFloatL (dropRightL l 1)).map (fun v => v / 1000)
  else if endsWithL l ['n'] then (pyFloatL (dropRightL l 1)).map (fun v => v / 1000000000)
  else if endsWithL l ['K', 'i'] then (pyFloatL (dropRightL l 2)).map (fun v => v * 1024)
  else if endsWithL l ['M', 'i'] then (pyFloatL (dropRightL l 2)).map (fun v => v * 1024 ^ 2)
  else if endsWithL l ['G', 'i'] then (pyFloatL (dropRightL l 2)).map (fun v => v * 1024 ^ 3)
  else if endsWithL l ['T', 'i'] then (pyFloatL (dropRightL l 2)).map (fun v => v * 1024 ^ 4)
  else if endsWithL l ['K'] then (pyFloatL (dropRightL l 1)).map (fun v => v * 1000)
  else if endsWithL l ['M'] then (pyFloatL (dropRightL l 1)).map (fun v => v * 1000 ^ 2)
  else if endsWithL l ['G'] then (pyFloatL (dropRightL l 1)).map (fun v => v * 1000 ^ 3)
  else if endsWithL l ['T'] then (pyFloatL (dropRightL l 1)).map (fun v => v * 1000 ^ 4)
  else pyFloatL l

/-- The remainder handed to the float constructor after suffix handling:
the string with its matched suffix stripped, or the whole string when no
suffix matches. -/
def strippedRemainder (l : List Char) : List Char :=
  if endsWithL l ['m'] then dropRightL l 1
  else if endsWithL l ['n'] then dropRightL l 1
  else
    match unitsList.find? (fun u => endsWithL l u.1) with
    | some u => dropRightL l u.1.length
    | none => l

/-- Floor of a rational, computed on its normalized numerator and
denominator. -/
def ratFloor (x : ℚ) : ℤ :=
  Int.fdiv x.num x.den

/-- Round a rational to the nearest integer, ties to even: the rounding
of Python's builtin round applied to exact values. -/
def roundHalfEven (x : ℚ) : ℤ :=
  let f := ratFloor x
  if x - f < 1 / 2 then f
  else if x - f > 1 / 2 then f + 1
  else if f % 2 = 0 then f else f + 1

/-- Python's round(x, n) on exact rational values. -/
def roundTo (n : ℕ) (x : ℚ) : ℚ :=
  (roundHalfEven (x * 10 ^ n) : ℚ) / 10 ^ n

/-- The per-node utilization expression of both servers:
(usage / capacity * 100) if capacity > 0 else 0. -/
def utilizationPercent (usage capacity : ℚ) : ℚ :=
  if capacity > 0 then usage / capacity * 100 else 0

/-- One per-node record of the cpu endpoints (round to 3 decimals for
cores, 2 for the percentage). -/
structure NodeDetail where
  node : String
  usage_cores : ℚ
  capacity_cores : ℚ
  utilization_percent : ℚ
deriving DecidableEq

/-- The cluster_cpu summary record. -/
structure ClusterCpu where
  total_usage_cores : ℚ
  total_capacity_cores : ℚ
  utilization_percent : ℚ
deriving DecidableEq

/-- The response of the cpu endpoints. -/
structure CpuResult where
  cluster_cpu : ClusterCpu
  nodes : List NodeDetail
deriving DecidableEq

/-- One per-node record of the memory endpoints (usage and capacity
reported in gibibytes, rounded to 2 decimals). -/
structure MemNodeDetail where
  node : String
  usage_gi : ℚ
  capacity_gi : ℚ
  utilization_percent : ℚ
deriving DecidableEq

/-- The cluster_memory summary record. -/
structure ClusterMemory where
  total_usage_gi : ℚ
  total_capacity_gi : ℚ
  utilization_percent : ℚ
deriving DecidableEq

/-- The response of the memory endpoints. -/
structure MemResult where
  cluster_memory : ClusterMemory
  nodes : List MemNodeDetail
deriving DecidableEq

/-- node_capacities as built from list_node(): node name to the node's
capacity dict (resource name to quantity string). -/
abbrev CapMap := List (String × List (String × String))

/-- node_capacities.get(name, dict()).get(res, zero-string): the capacity
quantity string of a subject, defaulting to the string 0 when the subject
or the resource key is missing. -/
def getCap (caps : CapMap) (name res : String) : String :=
  ((List.lookup name caps).getD []).lookup res |>.getD "0"

/-- One loop iteration's parsing work: the parsed usage and capacity of
one metrics item; none models a raised ValueError. -/
def processNode (caps : CapMap) (res : String) (item : String × String) : Option (ℚ × ℚ) :=
  match parse_quantity item.2, parse_quantity (getCap caps item.1 res) with
  | some u, some c => some (u, c)
  | _, _ => none

/-- The parsed (usage, capacity) pairs of a whole metrics listing; none
as soon as any item fails to parse. -/
def parsedPairs (caps : CapMap) (res : String) : List (String × String) → Option (List (ℚ × ℚ))
  | [] => some []
  | item :: rest =>
    match processNode caps res item, parsedPairs caps res rest with
    | some p, some ps => some (p :: ps)
    | _, _ => none

/-- Sum of the parsed usage values. -/
def usageSum (ps : List (ℚ × ℚ)) : ℚ :=
  (ps.map Prod.fst).sum

/-- Sum of the parsed capacity values. -/
def capacitySum (ps : List (ℚ × ℚ)) : ℚ :=
  (ps.map Prod.snd).sum

/-- The node_details entry appended per iteration by the cpu endpoints. -/
def mkNodeDetail (name : String) (usage capacity : ℚ) : NodeDetail :=
  ⟨name, roundTo 3 usage, roundTo 3 capacity, roundTo 2 (utilizationPercent usage capacity)⟩

/-- The node_details entry appended per iteration by the memory
endpoints. -/
def mkMemNodeDetail (name : String) (usage capacity : ℚ) : MemNodeDetail :=
  ⟨name, roundTo 2 (usage / 1024 ^ 3), roundTo 2 (capacity / 1024 ^ 3),
   roundTo 2 (utilizationPercent usage capacity)⟩

/-- The aggregation for-loop shared (by duplication) by the cpu and
memory endpoints: accumulates unrounded totals and appends one detail
record per metrics item, in input order; a parse failure aborts the
whole computation. -/
def aggLoop {D : Type} (caps : CapMap) (res : String) (mk : String → ℚ → ℚ → D) :
    List (String × String) → ℚ → ℚ → List D → Option (ℚ × ℚ × List D)
  | [], totalUsage, totalCapacity, details => some (totalUsage, totalCapacity, details)
  | item :: rest, totalUsage, totalCapacity, details =>
    match processNode caps res item with
    | some (u, c) =>
      aggLoop caps res mk rest (totalUsage + u) (totalCapacity + c)
        (details ++ [mk item.1 u c])
    | none => none

/-- The cpu endpoint of both servers, given the metrics listing (node
name, cpu usage quantity) and the capacity listing. -/
def get_cluster_cpu (metrics : List (String × String)) (caps : CapMap) : Option CpuResult :=
  (aggLoop caps "cpu" mkNodeDetail metrics 0 0 []).map
    (fun t => ⟨⟨roundTo 3 t.1, roundTo 3 t.2.1, roundTo 2 (utilizationPercent t.1 t.2.1)⟩, t.2.2⟩)

/-- The memory endpoint of both servers, given the metrics listing (node
name, memory usage quantity) and the capacity listing. -/
def get_cluster_memory (metrics : List (String × String)) (caps : CapMap) : Option MemResult :=
  (aggLoop caps "memory" mkMemNodeDetail metrics 0 0 []).map
    (fun t => ⟨⟨roundTo 2 (t.1 / 1024 ^ 3), roundTo 2 (t.2.1 / 1024 ^ 3),
                roundTo 2 (utilizationPercent t.1 t.2.1)⟩, t.2.2⟩)

/-- The detail records of a metrics listing with its parsed pairs. -/
def detailsOf {D : Type} (mk : String → ℚ → ℚ → D) :
    List (String × String) → List (ℚ × ℚ) → List D
  | item :: ms, p :: ps => mk item.1 p.1 p.2 :: detailsOf mk ms ps
  | _, _ => []

/-- All numeric values of a memory response, in the key order of the
JSON object the source builds: the three cluster_memory fields, then per
node usage_gi, capacity_gi, utilization_percent. -/
def memResultValues (r : MemResult) : List ℚ :=
  [r.cluster_memory.total_usage_gi, r.cluster_memory.total_capacity_gi,
   r.cluster_memory.utilization_percent] ++
  (r.nodes.map (fun d => [d.usage_gi, d.capacity_gi, d.utilization_percent])).flatten


/-- First character classes that stop a digit run. -/
def headNotRun : List Char → Prop
  | [] => True
  | c :: _ => c.isDigit = false ∧ c ≠ '_'

/-- The case variants of the unit suffixes that are not themselves unit
suffixes. -/
def caseVariantSuffixes : List (List Char) :=
  [['N'], ['k'], ['g'], ['t'],
   ['k', 'i'], ['k', 'I'], ['K', 'I'],
   ['m', 'i'], ['m', 'I'], ['M', 'I'],
   ['g', 'i'], ['g', 'I'], ['G', 'I'],
   ['t', 'i'], ['t', 'I'], ['T', 'I']]

theorem usageSum_nil : usageSum [] = 0 := rfl

theorem capacitySum_nil : capacitySum [] = 0 := rfl

theorem usageSum_cons (p : ℚ × ℚ) (ps : List (ℚ × ℚ)) :
    usageSum (p :: ps) = p.1 + usageSum ps := by
  simp [usageSum]

theorem capacitySum_cons (p : ℚ × ℚ) (ps : List (ℚ × ℚ)) :
    capacitySum (p :: ps) = p.2 + capacitySum ps := by
  simp [capacitySum]

theorem roundTo_zero3 : roundTo 3 0 = 0 := by decide

theorem roundTo_zero2 : roundTo 2 0 = 0 := by decide

theorem utilizationPercent_zero (u : ℚ) : utilizationPercent u 0 = 0 := by
  simp [utilizationPercent]

/-- A parse failure on any item of the listing aborts the whole loop. -/
theorem aggLoop_none {D : Type} (caps : CapMap) (res : String) (mk : String → ℚ → ℚ → D) :
    ∀ (ms : List (String × String)) (tu tc : ℚ) (acc : List D) (item : String × String),
      item ∈ ms → processNode caps res item = none →
      aggLoop caps res mk ms tu tc acc = none := by
  intro ms
  induction ms with
  | nil => intro tu tc acc item hmem; simp at hmem
  | cons hd tl ih =>
    intro tu tc acc item hmem hnone
    rcases List.mem_cons.mp hmem with rfl | hmem2
    · simp [aggLoop, hnone]
    · cases hp : processNode caps res hd with
      | none => simp [aggLoop, hp]
      | some p => simp [aggLoop, hp]; exact ih _ _ _ item hmem2 hnone

theorem processNode_none_of_usage (caps : CapMap) (res : String) (item : String × String)
    (h : parse_quantity item.2 = none) : processNode caps res item = none := by
  simp [processNode, h]

/-- The aggregation loop, characterized by the parsed pairs of the
listing: unrounded running sums, details in input order. -/
theorem aggLoop_eq {D : Type} (caps : CapMap) (res : String) (mk : String → ℚ → ℚ → D) :
    ∀ (ms : List (String × String)) (tu tc : ℚ) (acc : List D),
      aggLoop caps res mk ms tu tc acc =
        (parsedPairs caps res ms).map
          (fun ps => (tu + usageSum ps, tc + capacitySum ps, acc ++ detailsOf mk ms ps)) := by
  intro ms
  induction ms with
  | nil =>
    intro tu tc acc
    simp [aggLoop, parsedPairs, usageSum, capacitySum, detailsOf]
  | cons hd tl ih =>
    intro tu tc acc
    cases hp : processNode caps res hd with
    | none => simp [aggLoop, parsedPairs, hp]
    | some p =>
      obtain ⟨u, c⟩ := p
      have step : aggLoop caps res mk (hd :: tl) tu tc acc =
          aggLoop caps res mk tl (tu + u) (tc + c) (acc ++ [mk hd.1 u c]) := by
        simp [aggLoop, hp]
      rw [step, ih]
      cases hrest : parsedPairs caps res tl with
      | none => simp [parsedPairs, hp, hrest]
      | some ps =>
        have hcons : parsedPairs caps res (hd :: tl) = some ((u, c) :: ps) := by
          simp [parsedPairs, hp, hrest]
        rw [hcons]
        simp [usageSum_cons, capacitySum_cons, detailsOf, add_assoc]

theorem parsedPairs_length (caps : CapMap) (res : String) :
    ∀ (ms : List (String × String)) (ps : List (ℚ × ℚ)),
      parsedPairs caps res ms = some ps → ps.length = ms.length := by
  intro ms
  induction ms with
  | nil => intro ps h; simp [parsedPairs] at h; simp [h.symm]
  | cons hd tl ih =>
    intro ps h
    rw [parsedPairs] at h
    cases hp : processNode caps res hd with
    | none => rw [hp] at h; simp at h
    | some p =>
      rw [hp] at h
      cases hrest : parsedPairs caps res tl with
      | none => rw [hrest] at h; simp at h
      | some ps2 =>
        rw [hrest] at h
        simp at h
        have := ih ps2 hrest
        simp [h.symm, this]

theorem detailsOf_node_names :
    ∀ (ms : List (String × String)) (ps : List (ℚ × ℚ)), ps.length = ms.length →
      (detailsOf mkNodeDetail ms ps).map (fun d => d.node) = ms.map (fun p => p.1) := by
  intro ms
  induction ms with
  | nil => intro ps h; rw [List.length_eq_zero.mp h]; simp [detailsOf]
  | cons hd tl ih =>
    intro ps h
    cases ps with
    | nil => simp at h
    | cons p pt =>
      simp [detailsOf, mkNodeDetail]
      exact ih pt (by simpa using h)

/-- get_cluster_cpu, characterized by the parsed pairs. -/
theorem get_cluster_cpu_char (ms : List (String × String)) (caps : CapMap)
    (ps : List (ℚ × ℚ)) (h : parsedPairs caps "cpu" ms = some ps) :
    get_cluster_cpu ms caps =
      some ⟨⟨roundTo 3 (usageSum ps), roundTo 3 (capacitySum ps),
             roundTo 2 (utilizationPercent (usageSum ps) (capacitySum ps))⟩,
            detailsOf mkNodeDetail ms ps⟩ := by
  unfold get_cluster_cpu
  rw [aggLoop_eq, h]
  simp

/-- get_cluster_memory, characterized by the parsed pairs. -/
theorem get_cluster_memory_char (ms : List (String × String)) (caps : CapMap)
    (ps : List (ℚ × ℚ)) (h : parsedPairs caps "memory" ms = some ps) :
    get_cluster_memory ms caps =
      some ⟨⟨roundTo 2 (usageSum ps / 1024 ^ 3), roundTo 2 (capacitySum ps / 1024 ^ 3),
             roundTo 2 (utilizationPercent (usageSum ps) (capacitySum ps))⟩,
            detailsOf mkMemNodeDetail ms ps⟩ := by
  unfold get_cluster_memory
  rw [aggLoop_eq, h]
  simp

/-- C2: a capacity of 0 never causes a division error: a per-subject
record whose parsed capacity is 0 reports utilization 0, a zero total
capacity yields cluster utilization 0, and the division branch of the
utilization expression is only taken under the guard capacity > 0. -/
theorem zero_capacity_yields_zero_percent :
    (∀ (name : String) (usage : ℚ), (mkNodeDetail name usage 0).utilization_percent = 0)
    ∧ (∀ (usage capacity : ℚ), ¬ capacity > 0 → utilizationPercent usage capacity = 0)
    ∧ (∀ (usage capacity : ℚ), capacity > 0 →
        utilizationPercent usage capacity = usage / capacity * 100)
    ∧ (∀ (ms : List (String × String)) (caps : CapMap) (ps : List (ℚ × ℚ)),
        parsedPairs caps "cpu" ms = some ps → capacitySum ps = 0 →
        get_cluster_cpu ms caps =
          some ⟨⟨roundTo 3 (usageSum ps), 0, 0⟩, detailsOf mkNodeDetail ms ps⟩) := by
  refine ⟨?_, ?_, ?_, ?_⟩
  · intro name usage
    simp [mkNodeDetail, utilizationPercent, roundTo_zero2]
  · intro usage capacity h
    simp [utilizationPercent, h]
  · intro usage capacity h
    simp [utilizationPercent, h]
  · intro ms caps ps h hc
    rw [get_cluster_cpu_char ms caps ps h, hc]
    simp [utilizationPercent, roundTo_zero2, roundTo_zero3]

theorem zero_capacity_yields_zero_percent_witness :
    (mkNodeDetail "n1" 5 0).utilization_percent = 0 ∧
    get_cluster_cpu [("n1", "5")] [] =
      some ⟨⟨roundTo 3 (usageSum [(5, 0)]), 0, 0⟩, detailsOf mkNodeDetail [("n1", "5")] [(5, 0)]⟩ :=
  ⟨zero_capacity_yields_zero_percent.1 "n1" 5,
   zero_capacity_yields_zero_percent.2.2.2 [("n1", "5")] [] [(5, 0)] (by decide) (by decide)⟩

/-- C3: utilization percentages are never clamped: whenever the parsed
capacity is positive, the reported percentage is the display rounding of
usage / capacity * 100 itself, also above 100; on the concrete input
usage 12 and capacity 10 the endpoint reports 120, not 100. -/
theorem utilization_not_clamped :
    (∀ (name : String) (usage capacity : ℚ), capacity > 0 →
      (mkNodeDetail name usage capacity).utilization_percent =
        roundTo 2 (usage / capacity * 100))
    ∧ (∀ (ms : List (String × String)) (caps : CapMap) (ps : List (ℚ × ℚ)),
        parsedPairs caps "cpu" ms = some ps → capacitySum ps > 0 →
        get_cluster_cpu ms caps =
          some ⟨⟨roundTo 3 (usageSum ps), roundTo 3 (capacitySum ps),
                 roundTo 2 (usageSum ps / capacitySum ps * 100)⟩,
                detailsOf mkNodeDetail ms ps⟩)
    ∧ get_cluster_cpu [("n1", "12")] [("n1", [("cpu", "10")])] =
        some ⟨⟨12, 10, 120⟩, [⟨"n1", 12, 10, 120⟩]⟩ := by
  refine ⟨?_, ?_, by decide⟩
  · intro name usage capacity h
    simp [mkNodeDetail, utilizationPercent, h]
  · intro ms caps ps h hc
    rw [get_cluster_cpu_char ms caps ps h]
    simp [utilizationPercent, hc]

theorem utilization_not_clamped_witness :
    (mkNodeDetail "n1" 12 10).utilization_percent = roundTo 2 (12 / 10 * 100) :=
  utilization_not_clamped.1 "n1" 12 10 (by norm_num)

/-- C6: the reported totals are the display roundings of the sums of the
unrounded parsed values (never of the per-sample rounded display values),
and the cluster utilization is total usage over total capacity times 100
when total capacity is positive, else 0. -/
theorem totals_are_unrounded_sums :
    ∀ (ms : List (String × String)) (caps : CapMap) (ps : List (ℚ × ℚ)),
      parsedPairs caps "cpu" ms = some ps →
      get_cluster_cpu ms caps =
        some ⟨⟨roundTo 3 (usageSum ps), roundTo 3 (capacitySum ps),
               roundTo 2 (if capacitySum ps > 0 then usageSum ps / capacitySum ps * 100 else 0)⟩,
              detailsOf mkNodeDetail ms ps⟩ := by
  intro ms caps ps h
  rw [get_cluster_cpu_char ms caps ps h]
  simp [utilizationPercent]

theorem totals_are_unrounded_sums_witness :
    get_cluster_cpu [("a", "1"), ("b", "2")] [("a", [("cpu", "4")]), ("b", [("cpu", "4")])] =
      some ⟨⟨roundTo 3 (usageSum [(1, 4), (2, 4)]), roundTo 3 (capacitySum [(1, 4), (2, 4)]),
             roundTo 2 (if capacitySum [(1, 4), (2, 4)] > 0 then
               usageSum [(1, 4), (2, 4)] / capacitySum [(1, 4), (2, 4)] * 100 else 0)⟩,
            detailsOf mkNodeDetail [("a", "1"), ("b", "2")] [(1, 4), (2, 4)]⟩ :=
  totals_are_unrounded_sums [("a", "1"), ("b", "2")]
    [("a", [("cpu", "4")]), ("b", [("cpu", "4")])] [(1, 4), (2, 4)] (by decide)

/-- C7: the output per-subject list carries the subjects in exactly the
input order of the metrics listing: one record per sample, no sorting. -/
theorem output_preserves_input_order :
    ∀ (ms : List (String × String)) (caps : CapMap) (r : CpuResult),
      get_cluster_cpu ms caps = some r →
      r.nodes.map (fun d => d.node) = ms.map (fun p => p.1) := by
  intro ms caps r h
  unfold get_cluster_cpu at h
  rw [aggLoop_eq] at h
  cases hps : parsedPairs caps "cpu" ms with
  | none => rw [hps] at h; simp at h
  | some ps =>
    rw [hps] at h
    simp at h
    have hlen := parsedPairs_length caps "cpu" ms ps hps
    have := detailsOf_node_names ms ps hlen
    rw [h.symm]
    simpa using this

theorem output_preserves_input_order_witness :
    (⟨⟨3, 0, 0⟩, [⟨"a", 1, 0, 0⟩, ⟨"b", 2, 0, 0⟩]⟩ : CpuResult).nodes.map (fun d => d.node) =
      [("a", "1"), ("b", "2")].map (fun p => p.1) :=
  output_preserves_input_order [("a", "1"), ("b", "2")] []
    (⟨⟨3, 0, 0⟩, [⟨"a", 1, 0, 0⟩, ⟨"b", 2, 0, 0⟩]⟩) (by decide)

/-- C8: aggregating an empty sample list is not an error: both endpoints
return zero totals, zero utilization and an empty per-subject list. -/
theorem empty_sample_list_ok :
    ∀ caps : CapMap,
      get_cluster_cpu [] caps = some ⟨⟨0, 0, 0⟩, []⟩ ∧
      get_cluster_memory [] caps = some ⟨⟨0, 0, 0⟩, []⟩ := by
  intro caps
  constructor
  · simp [get_cluster_cpu, aggLoop, utilizationPercent, roundTo_zero2, roundTo_zero3]
  · simp [get_cluster_memory, aggLoop, utilizationPercent, roundTo_zero2, roundTo_zero3]

/-- C9: a subject present in the metrics listing but absent from the
capacity listing does not make the aggregator fail: the capacity string
defaults to the string 0, the subject is reported with capacity 0 and
utilization 0, and it contributes 0 to the total capacity. -/
theorem missing_capacity_defaults_to_zero :
    ∀ (caps : CapMap) (name res ustr : String) (u : ℚ),
      List.lookup name caps = none → parse_quantity ustr = some u →
      getCap caps name res = "0"
      ∧ processNode caps res (name, ustr) = some (u, 0)
      ∧ get_cluster_cpu [(name, ustr)] caps =
          some ⟨⟨roundTo 3 u, 0, 0⟩, [⟨name, roundTo 3 u, 0, 0⟩]⟩ := by
  intro caps name res ustr u hlook hparse
  have hcap : getCap caps name res = "0" := by
    simp [getCap, hlook]
  have hzero : parse_quantity "0" = some 0 := by decide
  have hproc : ∀ r : String, processNode caps r (name, ustr) = some (u, 0) := by
    intro r
    have : getCap caps name r = "0" := by simp [getCap, hlook]
    simp [processNode, hparse, this, hzero]
  refine ⟨hcap, hproc res, ?_⟩
  have hps : parsedPairs caps "cpu" [(name, ustr)] = some [(u, 0)] := by
    simp [parsedPairs, hproc]
  rw [get_cluster_cpu_char [(name, ustr)] caps [(u, 0)] hps]
  simp [usageSum, capacitySum, detailsOf, mkNodeDetail, utilizationPercent,
        roundTo_zero2, roundTo_zero3]

theorem missing_capacity_defaults_to_zero_witness :
    getCap [] "n1" "cpu" = "0"
    ∧ processNode [] "cpu" ("n1", "7") = some (7, 0)
    ∧ get_cluster_cpu [("n1", "7")] [] =
        some ⟨⟨roundTo 3 7, 0, 0⟩, [⟨"n1", roundTo 3 7, 0, 0⟩]⟩ :=
  missing_capacity_defaults_to_zero [] "n1" "cpu" "7" 7 (by decide) (by decide)

/-- C1: parse_quantity follows the strict precedence of the spec: empty
input is 0; a trailing m divides by 1000 and a trailing n by 10^9; then
the suffixes Ki, Mi, Gi, Ti, K, M, G, T are tested in exactly that order
with first match winning, two-character suffixes matched as whole units;
with no suffix the whole string is parsed as a bare float.  Together with
the spec's particular values, including that 5Ki is 5120 and never
5000. -/
theorem parse_quantity_precedence :
    (∀ l : List Char, parseQ l = parseQuantitySpec l)
    ∧ parse_quantity "5Ki" = some 5120
    ∧ parse_quantity "5K" = some 5000
    ∧ parse_quantity "250m" = some (1 / 4)
    ∧ parse_quantity "1000000000n" = some 1
    ∧ parse_quantity "" = some 0
    ∧ parse_quantity "4" = some 4 := by
  refine ⟨?_, by decide, by decide, by decide, by decide, by decide, by decide⟩
  intro l
  by_cases h0 : l = []
  · simp [parseQ, parseQuantitySpec, h0]
  by_cases hm : endsWithL l ['m'] = true
  · simp [parseQ, parseQuantitySpec, h0, hm]
  by_cases hn : endsWithL l ['n'] = true
  · simp [parseQ, parseQuantitySpec, h0, hm, hn]
  by_cases hKi : endsWithL l ['K', 'i'] = true
  · simp [parseQ, parseQuantitySpec, unitsList, List.find?, h0, hm, hn, hKi, dropRightL]
  by_cases hMi : endsWithL l ['M', 'i'] = true
  · simp [parseQ, parseQuantitySpec, unitsList, List.find?, h0, hm, hn, hKi, hMi, dropRightL]
  by_cases hGi : endsWithL l ['G', 'i'] = true
  · simp [parseQ, parseQuantitySpec, unitsList, List.find?, h0, hm, hn, hKi, hMi, hGi, dropRightL]
  by_cases hTi : endsWithL l ['T', 'i'] = true
  · simp [parseQ, parseQuantitySpec, unitsList, List.find?, h0, hm, hn, hKi, hMi, hGi, hTi,
      dropRightL]
  by_cases hK : endsWithL l ['K'] = true
  · simp [parseQ, parseQuantitySpec, unitsList, List.find?, h0, hm, hn, hKi, hMi, hGi, hTi, hK,
      dropRightL]
  by_cases hM : endsWithL l ['M'] = true
  · simp [parseQ, parseQuantitySpec, unitsList, List.find?, h0, hm, hn, hKi, hMi, hGi, hTi, hK,
      hM, dropRightL]
  by_cases hG : endsWithL l ['G'] = true
  · simp [parseQ, parseQuantitySpec, unitsList, List.find?, h0, hm, hn, hKi, hMi, hGi, hTi, hK,
      hM, hG, dropRightL]
  by_cases hT : endsWithL l ['T'] = true
  · simp [parseQ, parseQuantitySpec, unitsList, List.find?, h0, hm, hn, hKi, hMi, hGi, hTi, hK,
      hM, hG, hT, dropRightL]
  · simp [parseQ, parseQuantitySpec, unitsList, List.find?, h0, hm, hn, hKi, hMi, hGi, hTi, hK,
      hM, hG, hT, dropRightL]

/-- C5: parse_quantity fails exactly when, after suffix handling, the
stripped remainder (the whole string when no suffix matched, on nonempty
input) is not a valid float literal; and the failure propagates through
the aggregation as a hard failure of the whole endpoint, with no silent
fallback to zero. -/
theorem parse_failure_iff_bad_remainder :
    (∀ l : List Char, parseQ l = none ↔ l ≠ [] ∧ pyFloatL (strippedRemainder l) = none)
    ∧ (∀ (ms : List (String × String)) (caps : CapMap) (item : String × String),
        item ∈ ms → parse_quantity item.2 = none → get_cluster_cpu ms caps = none) := by
  constructor
  · intro l
    by_cases h0 : l = []
    · simp [parseQ, h0]
    by_cases hm : endsWithL l ['m'] = true
    · simp [parseQ, strippedRemainder, h0, hm, Option.map_eq_none']
    by_cases hn : endsWithL l ['n'] = true
    · simp [parseQ, strippedRemainder, h0, hm, hn, Option.map_eq_none']
    cases hfind : unitsList.find? (fun u => endsWithL l u.1) with
    | none => simp [parseQ, strippedRemainder, h0, hm, hn, hfind]
    | some u => simp [parseQ, strippedRemainder, h0, hm, hn, hfind, Option.map_eq_none']
  · intro ms caps item hmem hparse
    unfold get_cluster_cpu
    rw [aggLoop_none caps "cpu" mkNodeDetail ms 0 0 [] item hmem
      (processNode_none_of_usage caps "cpu" item hparse)]
    rfl

theorem parse_failure_iff_bad_remainder_witness :
    get_cluster_cpu [("n1", "abc")] [] = none :=
  parse_failure_iff_bad_remainder.2 [("n1", "abc")] [] ("n1", "abc")
    (by decide) (by decide)

/-- C4 counterexample: on a concrete input whose usage is 3 GiB and whose
capacity is 4 GiB, the memory endpoint's response carries only the
gibibyte conversions and percentages; no value of the response equals
either raw byte total, so the raw byte totals are not reported alongside
the gibibyte figures. -/
theorem memory_raw_bytes_not_reported :
    get_cluster_memory [("node1", "3221225472")] [("node1", [("memory", "4294967296")])] =
      some ⟨⟨3, 4, 75⟩, [⟨"node1", 3, 4, 75⟩]⟩
    ∧ ∀ v ∈ memResultValues ⟨⟨3, 4, 75⟩, [⟨"node1", 3, 4, 75⟩]⟩,
        v ≠ 3221225472 ∧ v ≠ 4294967296 := by
  exact ⟨by decide, by decide⟩

/-- C4 as amended: byte-based aggregation reports usage and capacity
converted to gibibytes (bytes over 1024 cubed) in place of the raw byte
totals, which do not appear in the output; gibibyte figures and
percentages are rounded to 2 decimal places and core figures to 3; a
usage of 2 times 1024 cubed bytes reports usage_gi exactly 2. -/
theorem memory_gi_reporting :
    (∀ (ms : List (String × String)) (caps : CapMap) (ps : List (ℚ × ℚ)),
      parsedPairs caps "memory" ms = some ps →
      get_cluster_memory ms caps =
        some ⟨⟨roundTo 2 (usageSum ps / 1024 ^ 3), roundTo 2 (capacitySum ps / 1024 ^ 3),
               roundTo 2 (utilizationPercent (usageSum ps) (capacitySum ps))⟩,
              detailsOf mkMemNodeDetail ms ps⟩)
    ∧ (∀ (name : String) (u c : ℚ),
        (mkMemNodeDetail name u c).usage_gi = roundTo 2 (u / 1024 ^ 3)
        ∧ (mkMemNodeDetail name u c).capacity_gi = roundTo 2 (c / 1024 ^ 3)
        ∧ (mkMemNodeDetail name u c).utilization_percent = roundTo 2 (utilizationPercent u c)
        ∧ (mkNodeDetail name u c).usage_cores = roundTo 3 u
        ∧ (mkNodeDetail name u c).capacity_cores = roundTo 3 c
        ∧ (mkNodeDetail name u c).utilization_percent = roundTo 2 (utilizationPercent u c))
    ∧ (∀ (name : String) (c : ℚ), (mkMemNodeDetail name (2 * 1024 ^ 3) c).usage_gi = 2) := by
  refine ⟨?_, ?_, ?_⟩
  · intro ms caps ps h
    exact get_cluster_memory_char ms caps ps h
  · intro name u c
    exact ⟨rfl, rfl, rfl, rfl, rfl, rfl⟩
  · intro name c
    show roundTo 2 ((2 * 1024 ^ 3 : ℚ) / 1024 ^ 3) = 2
    have h : (2 * 1024 ^ 3 : ℚ) / 1024 ^ 3 = 2 := by norm_num
    rw [h]
    decide

theorem memory_gi_reporting_witness :
    get_cluster_memory [("n1", "2147483648")] [("n1", [("memory", "4294967296")])] =
      some ⟨⟨2, 4, 50⟩, [⟨"n1", 2, 4, 50⟩]⟩ :=
  (memory_gi_reporting.1 [("n1", "2147483648")] [("n1", [("memory", "4294967296")])]
    [(2147483648, 4294967296)] (by decide)).trans (by decide)

theorem startsWithL_cons_of_ne (p x : Char) (ps xs : List Char) (h : p ≠ x) :
    startsWithL (p :: ps) (x :: xs) = false := by
  simp [startsWithL, h]

theorem endsWithL_app_one_one (l : List Char) (a x : Char) (h : x ≠ a) :
    endsWithL (l ++ [a]) [x] = false := by
  simp [endsWithL, List.reverse_append, startsWithL, h]

theorem endsWithL_app_two_one (l : List Char) (a b x : Char) (h : x ≠ b) :
    endsWithL (l ++ [a, b]) [x] = false := by
  simp [endsWithL, List.reverse_append, startsWithL, h]

theorem endsWithL_app_one_two (l : List Char) (a x y : Char) (h : y ≠ a) :
    endsWithL (l ++ [a]) [x, y] = false := by
  simp [endsWithL, List.reverse_append, startsWithL, h]

theorem endsWithL_app_two_two (l : List Char) (a b x y : Char) (h : x ≠ a ∨ y ≠ b) :
    endsWithL (l ++ [a, b]) [x, y] = false := by
  rcases h with h | h
  · by_cases hyb : y = b
    · subst hyb; simp [endsWithL, List.reverse_append, startsWithL, h]
    · simp [endsWithL, List.reverse_append, startsWithL, hyb]
  · simp [endsWithL, List.reverse_append, startsWithL, h]

/-- When no suffix check fires, parse_quantity hands the whole string to
the float constructor. -/
theorem parseQ_eq_pyFloatL (l : List Char) (h0 : l ≠ [])
    (hm : endsWithL l ['m'] = false) (hn : endsWithL l ['n'] = false)
    (hu : ∀ u ∈ unitsList, endsWithL l u.1 = false) :
    parseQ l = pyFloatL l := by
  have hfind : unitsList.find? (fun u => endsWithL l u.1) = none := by
    rw [List.find?_eq_none]
    intro u hu2
    simp [hu u hu2]
  simp [parseQ, h0, hm, hn, hfind]

theorem runTail_append (s : List Char) (hs : headNotRun s) :
    ∀ d : List Char, (∀ c ∈ d, c.isDigit = true) → runTail (d ++ s) = (d, s) := by
  intro d
  induction d with
  | nil =>
    intro _
    cases s with
    | nil => rfl
    | cons c cs =>
      obtain ⟨h1, h2⟩ := hs
      rw [List.nil_append, runTail.eq_def]
      simp [h1, h2]
  | cons c d' ih =>
    intro hd
    have hc : c.isDigit = true := hd c (by simp)
    have hih := ih (fun x hx => hd x (by simp [hx]))
    rw [List.cons_append, runTail.eq_def]
    simp [hc, hih]

theorem digitsRun_append (d s : List Char) (hne : d ≠ [])
    (hd : ∀ c ∈ d, c.isDigit = true) (hs : headNotRun s) :
    digitsRun (d ++ s) = (d, s) := by
  cases d with
  | nil => exact absurd rfl hne
  | cons c d' =>
    have hc : c.isDigit = true := hd c (by simp)
    have := runTail_append s hs d' (fun x hx => hd x (by simp [hx]))
    simp [digitsRun, hc, this]

theorem dropWhile_pyWs_eq_self (l : List Char) (h : ∀ c ∈ l, isPyWs c = false) :
    l.dropWhile isPyWs = l := by
  cases l with
  | nil => rfl
  | cons c cs => simp [List.dropWhile_cons, h c (by simp)]

theorem stripWs_eq_self (l : List Char) (h : ∀ c ∈ l, isPyWs c = false) :
    stripWs l = l := by
  unfold stripWs
  rw [dropWhile_pyWs_eq_self l h,
      dropWhile_pyWs_eq_self _ (fun c hc => h c (List.mem_reverse.mp hc)),
      List.reverse_reverse]

theorem digit_not_pyWs (c : Char) (h : c.isDigit = true) : isPyWs c = false := by
  simp only [isPyWs, decide_eq_false_iff_not]
  rintro (rfl | rfl | rfl | rfl | rfl | rfl) <;> exact absurd h (by decide)

theorem digit_ne_plus (c : Char) (h : c.isDigit = true) : c ≠ '+' :=
  fun he => absurd (he ▸ h) (by decide)

theorem digit_ne_minus (c : Char) (h : c.isDigit = true) : c ≠ '-' :=
  fun he => absurd (he ▸ h) (by decide)

/-- A nonempty digit string followed by a character that can neither
continue the digit run nor open a fraction or an exponent is not a float
literal. -/
theorem pyFloatL_digits_bad (d : List Char) (c : Char) (rest : List Char)
    (hne : d ≠ []) (hd : ∀ x ∈ d, x.isDigit = true)
    (hcd : c.isDigit = false) (hcu : c ≠ '_') (hcp : c ≠ '.')
    (hce : c ≠ 'e') (hcE : c ≠ 'E') (hcw : isPyWs c = false)
    (hr : ∀ x ∈ rest, isPyWs x = false) :
    pyFloatL (d ++ c :: rest) = none := by
  have hnw : ∀ x ∈ d ++ c :: rest, isPyWs x = false := by
    intro x hx
    rcases List.mem_append.mp hx with hx | hx
    · exact digit_not_pyWs x (hd x hx)
    · rcases List.mem_cons.mp hx with rfl | hx
      · exact hcw
      · exact hr x hx
  have hstrip : stripWs (d ++ c :: rest) = d ++ c :: rest := stripWs_eq_self _ hnw
  cases d with
  | nil => exact absurd rfl hne
  | cons c0 d' =>
    have hc0 : c0.isDigit = true := hd c0 (by simp)
    have hstrip2 : stripWs (c0 :: (d' ++ c :: rest)) = c0 :: (d' ++ c :: rest) := by
      simpa using hstrip
    have hsign : parseSignL (c0 :: (d' ++ c :: rest)) = (false, c0 :: (d' ++ c :: rest)) := by
      simp [parseSignL, digit_ne_plus c0 hc0, digit_ne_minus c0 hc0]
    have hrun : digitsRun (c0 :: (d' ++ c :: rest)) = (c0 :: d', c :: rest) := by
      have h := digitsRun_append (c0 :: d') (c :: rest) (by simp) hd ⟨hcd, hcu⟩
      simpa using h
    have hmant : mantissaCore (c0 :: (d' ++ c :: rest)) =
        some ((natOfDigits (c0 :: d') : ℚ), c :: rest) := by
      simp [mantissaCore, hrun, hcp]
    have hexp : parseExpPart (c :: rest) = none := by
      simp [parseExpPart, hce, hcE]
    simp [pyFloatL, hstrip2, hsign, hmant, hexp]

/-- A nonempty digit string followed by a single character that is
neither a valid one-character suffix, the tail of a two-character
suffix, nor a float-literal character, fails to parse. -/
theorem parseQ_append_one_bad (d : List Char) (a : Char)
    (hne : d ≠ []) (hd : ∀ x ∈ d, x.isDigit = true)
    (ha : a ≠ 'm' ∧ a ≠ 'n' ∧ a ≠ 'K' ∧ a ≠ 'M' ∧ a ≠ 'G' ∧ a ≠ 'T' ∧ a ≠ 'i'
      ∧ a.isDigit = false ∧ a ≠ '_' ∧ a ≠ '.' ∧ a ≠ 'e' ∧ a ≠ 'E' ∧ isPyWs a = false) :
    parseQ (d ++ [a]) = none := by
  obtain ⟨h1, h2, h3, h4, h5, h6, h7, hcd, hcu, hcp, hce, hcE, hcw⟩ := ha
  have hu : ∀ u ∈ unitsList, endsWithL (d ++ [a]) u.1 = false := by
    intro u hu2
    fin_cases hu2
    · exact endsWithL_app_one_two d a 'K' 'i' (Ne.symm h7)
    · exact endsWithL_app_one_two d a 'M' 'i' (Ne.symm h7)
    · exact endsWithL_app_one_two d a 'G' 'i' (Ne.symm h7)
    · exact endsWithL_app_one_two d a 'T' 'i' (Ne.symm h7)
    · exact endsWithL_app_one_one d a 'K' (Ne.symm h3)
    · exact endsWithL_app_one_one d a 'M' (Ne.symm h4)
    · exact endsWithL_app_one_one d a 'G' (Ne.symm h5)
    · exact endsWithL_app_one_one d a 'T' (Ne.symm h6)
  rw [parseQ_eq_pyFloatL (d ++ [a]) (by simp)
    (endsWithL_app_one_one d a 'm' (Ne.symm h1))
    (endsWithL_app_one_one d a 'n' (Ne.symm h2)) hu]
  exact pyFloatL_digits_bad d a [] hne hd hcd hcu hcp hce hcE hcw (by simp)

/-- A nonempty digit string followed by two characters that together
match no suffix and cannot extend a float literal fails to parse. -/
theorem parseQ_append_two_bad (d : List Char) (a b : Char)
    (hne : d ≠ []) (hd : ∀ x ∈ d, x.isDigit = true)
    (hab : (b ≠ 'm' ∧ b ≠ 'n' ∧ b ≠ 'K' ∧ b ≠ 'M' ∧ b ≠ 'G' ∧ b ≠ 'T')
      ∧ ((a ≠ 'K' ∨ b ≠ 'i') ∧ (a ≠ 'M' ∨ b ≠ 'i') ∧ (a ≠ 'G' ∨ b ≠ 'i') ∧ (a ≠ 'T' ∨ b ≠ 'i'))
      ∧ (a.isDigit = false ∧ a ≠ '_' ∧ a ≠ '.' ∧ a ≠ 'e' ∧ a ≠ 'E'
         ∧ isPyWs a = false ∧ isPyWs b = false)) :
    parseQ (d ++ [a, b]) = none := by
  obtain ⟨⟨hb1, hb2, hb3, hb4, hb5, hb6⟩, ⟨hKi, hMi, hGi, hTi⟩,
    hcd, hcu, hcp, hce, hcE, hcw, hbw⟩ := hab
  have hu : ∀ u ∈ unitsList, endsWithL (d ++ [a, b]) u.1 = false := by
    intro u hu2
    fin_cases hu2
    · exact endsWithL_app_two_two d a b 'K' 'i' (hKi.imp Ne.symm Ne.symm)
    · exact endsWithL_app_two_two d a b 'M' 'i' (hMi.imp Ne.symm Ne.symm)
    · exact endsWithL_app_two_two d a b 'G' 'i' (hGi.imp Ne.symm Ne.symm)
    · exact endsWithL_app_two_two d a b 'T' 'i' (hTi.imp Ne.symm Ne.symm)
    · exact endsWithL_app_two_one d a b 'K' (Ne.symm hb3)
    · exact endsWithL_app_two_one d a b 'M' (Ne.symm hb4)
    · exact endsWithL_app_two_one d a b 'G' (Ne.symm hb5)
    · exact endsWithL_app_two_one d a b 'T' (Ne.symm hb6)
  rw [parseQ_eq_pyFloatL (d ++ [a, b]) (by simp)
    (endsWithL_app_two_one d a b 'm' (Ne.symm hb1))
    (endsWithL_app_two_one d a b 'n' (Ne.symm hb2)) hu]
  exact pyFloatL_digits_bad d a [b] hne hd hcd hcu hcp hce hcE hcw
    (by intro x hx; rcases List.mem_singleton.mp hx with rfl; exact hbw)

/-- C10: suffix matching is case-sensitive: a nonempty digit string
followed by a case variant of a recognized suffix that is not itself a
recognized suffix gets no multiplier applied and fails with the
numeric-parse error instead of returning a value. -/
theorem suffix_matching_case_sensitive :
    ∀ d : List Char, d ≠ [] → (∀ x ∈ d, x.isDigit = true) →
      ∀ s ∈ caseVariantSuffixes, parseQ (d ++ s) = none := by
  intro d hne hd s hs
  fin_cases hs
  · exact parseQ_append_one_bad d 'N' hne hd (by decide)
  · exact parseQ_append_one_bad d 'k' hne hd (by decide)
  · exact parseQ_append_one_bad d 'g' hne hd (by decide)
  · exact parseQ_append_one_bad d 't' hne hd (by decide)
  · exact parseQ_append_two_bad d 'k' 'i' hne hd (by decide)
  · exact parseQ_append_two_bad d 'k' 'I' hne hd (by decide)
  · exact parseQ_append_two_bad d 'K' 'I' hne hd (by decide)
  · exact parseQ_append_two_bad d 'm' 'i' hne hd (by decide)
  · exact parseQ_append_two_bad d 'm' 'I' hne hd (by decide)
  · exact parseQ_append_two_bad d 'M' 'I' hne hd (by decide)
  · exact parseQ_append_two_bad d 'g' 'i' hne hd (by decide)
  · exact parseQ_append_two_bad d 'g' 'I' hne hd (by decide)
  · exact parseQ_append_two_bad d 'G' 'I' hne hd (by decide)
  · exact parseQ_append_two_bad d 't' 'i' hne hd (by decide)
  · exact parseQ_append_two_bad d 't' 'I' hne hd (by decide)
  · exact parseQ_append_two_bad d 'T' 'I' hne hd (by decide)

theorem suffix_matching_case_sensitive_witness :
    parseQ (['5'] ++ ['k', 'i']) = none :=
  suffix_matching_case_sensitive ['5'] (by decide) (by decide) ['k', 'i'] (by decide)
